import Mathlib

/-!
# Cambridge dictionary parser: `parser.ParseWord`

A shallow embedding of `src/parser/parser.go`.

* Go strings are modelled by Lean `String` (sequences of Unicode scalar
  values; text that is not valid UTF-8 is outside the model).
* The colly collector is the external collaborator.  What one call of
  `collector.Visit(url)` does is a `VisitResult`: the callback events it
  delivers, in time order, followed by its return value.  `ParseWord` takes
  this behaviour as the argument `visit`, a function of the URL, so that the
  theorems hold for every behaviour of the collector.
* The collector keeps every registered callback.  A callback is a closure over
  the local variables of the `ParseWord` call that registered it; these
  variables live in `Collector.vars` and a closure refers to them by index.
* `Logger` calls return nothing and change none of the modelled variables;
  they are left out.
-/

set_option linter.dupNamespace false

namespace CambridgeParser

/-! ## Go library functions used by the source -/

/-- Go `unicode.IsSpace`: the Latin-1 white space characters
`\t \n \v \f \r`, space, U+0085, U+00A0, and outside Latin-1 the characters
with the Unicode White_Space property. -/
def IsSpace (r : Char) : Bool :=
  let n := r.toNat
  if n ≤ 0xFF then
    (9 ≤ n && n ≤ 13) || n == 0x20 || n == 0x85 || n == 0xA0
  else
    n == 0x1680 || (0x2000 ≤ n && n ≤ 0x200A) || n == 0x2028 || n == 0x2029
      || n == 0x202F || n == 0x205F || n == 0x3000

/-- Go `strings.TrimSpace`: the string with all leading and trailing white
space (`unicode.IsSpace`) removed. -/
def TrimSpace (s : String) : String :=
  ⟨(s.data.dropWhile IsSpace).rdropWhile IsSpace⟩

/-- Go error values (non-nil).  `plain` is an error without an `Unwrap`
method; `wrapError` is the `*fmt.wrapError` that `fmt.Errorf` builds for a
format with one `%w` verb (any other error that wraps one cause has the same
shape).  A nil error is `none : Option GoError`. -/
inductive GoError where
  | plain (msg : String)
  | wrapError (msg : String) (err : GoError)
deriving DecidableEq, Repr

/-- The `Error()` method. -/
def GoError.Error : GoError → String
  | .plain msg => msg
  | .wrapError msg _ => msg

/-- Go `errors.Unwrap`. -/
def GoError.Unwrap : GoError → Option GoError
  | .plain _ => none
  | .wrapError _ err => some err

/-- The error values a consumer meets by repeatedly calling `errors.Unwrap`,
starting with the error itself (the chain that `errors.Is` walks). -/
def GoError.unwrapChain : GoError → List GoError
  | .plain msg => [.plain msg]
  | .wrapError msg err => .wrapError msg err :: err.unwrapChain

/-- `fmt.Errorf("%v; %w", err, resultErr)`: `%v` prints the message of `err`,
`%w` prints the message of `resultErr` and makes it the wrapped cause. -/
def ErrorfJoin (err resultErr : GoError) : GoError :=
  .wrapError (err.Error ++ "; " ++ resultErr.Error) resultErr

/-- `fmt.Errorf("failed to scrape: %w", err)`. -/
def ErrorfScrape (err : GoError) : GoError :=
  .wrapError ("failed to scrape: " ++ err.Error) err

/-! ## Data model (`parser.go` lines 10-27) -/

/-- `Definition` holds a word definition and its associated examples. -/
structure Definition where
  Definition : String
  Examples : List String
deriving DecidableEq, Repr

/-- `WordData` holds the word and its definitions. -/
structure WordData where
  Word : String
  Definitions : List Definition
deriving DecidableEq, Repr

/-- The zero value `WordData{}`. -/
def WordData.zero : WordData := ⟨"", []⟩

/-! ## What the callbacks see of the document -/

/-- A `.def-block` element as the extraction callback reads it. -/
structure DefBlock where
  /-- the value of `defBlock.ChildText(".def")` -/
  ChildText : String
  /-- `ex.Text` of every `.examp` element that `defBlock.ForEach` visits, in
  document order -/
  examp : List String
deriving DecidableEq, Repr

/-- An element matching `.pr .dictionary`, given by the `.def-block` elements
that `e.ForEach(".def-block", ...)` visits, in document order. -/
structure HTMLElement where
  defBlocks : List DefBlock
deriving DecidableEq, Repr

/-! ## The callbacks of `ParseWord` -/

/-- Local variables of one `ParseWord` call that its closures capture. -/
structure Locals where
  wordData : WordData
  foundFirstDefinition : Bool
  resultErr : Option GoError
deriving DecidableEq, Repr

/-- Body of the inner `defBlock.ForEach(".examp", ...)` callback (lines 94-99):
one step on `def.Examples`. -/
def exampStep (examples : List String) (text : String) : List String :=
  let example_ := TrimSpace text
  if example_ ≠ "" then examples ++ [example_] else examples

/-- Body of the `e.ForEach(".def-block", ...)` callback (lines 86-103): one
step on `wordData.Definitions`. -/
def defBlockStep (definitions : List Definition) (defBlock : DefBlock) : List Definition :=
  let definition := TrimSpace defBlock.ChildText
  if definition ≠ "" then
    let d : Definition := { Definition := definition, Examples := [] }
    let d := { d with Examples := defBlock.examp.foldl exampStep d.Examples }
    definitions ++ [d]
  else definitions

/-- The `OnHTML(".pr .dictionary", ...)` callback (lines 80-106). -/
def OnHTML (st : Locals) (e : HTMLElement) : Locals :=
  if st.foundFirstDefinition then st
  else
    { st with
      wordData :=
        { st.wordData with
          Definitions := e.defBlocks.foldl defBlockStep st.wordData.Definitions }
      foundFirstDefinition := true }

/-- The assignment to `resultErr` in the `OnError` callback (lines 112-116):
the new value of `resultErr`, which is never nil. -/
def aggregate (resultErr : Option GoError) (err : GoError) : GoError :=
  match resultErr with
  | none => err
  | some prev => ErrorfJoin err prev

/-- The `OnError` callback (lines 110-117). -/
def OnError (st : Locals) (err : GoError) : Locals :=
  { st with resultErr := some (aggregate st.resultErr err) }

/-! ## The collector -/

/-- A callback invocation that the collector makes during a visit. -/
inductive Event where
  | html (e : HTMLElement)
  | error (err : GoError)
deriving DecidableEq, Repr

/-- What one `collector.Visit(url)` does: the events it delivers to the
registered callbacks, in time order, and the error it returns. -/
structure VisitResult where
  events : List Event
  ret : Option GoError
deriving DecidableEq, Repr

/-- A registered callback: a closure of `ParseWord`, with the index in
`Collector.vars` of the locals it captured. -/
inductive Callback where
  | onHTML (cell : Nat)
  | onError (cell : Nat)
  | onRequest
deriving DecidableEq, Repr

/-- The collector: its registered callbacks, in registration order, and the
captured variables they refer to. -/
structure Collector where
  callbacks : List Callback
  vars : List Locals
deriving DecidableEq, Repr

/-- `DictionaryParser` (the logger is not modelled). -/
structure DictionaryParser where
  collector : Collector
  baseURL : String
deriving DecidableEq, Repr

/-- `NewDictionaryParser` with the default options: a new collector and the
default base URL. -/
def NewDictionaryParser : DictionaryParser :=
  { collector := { callbacks := [], vars := [] }
    baseURL := "https://dictionary.cambridge.org/dictionary/english/" }

/-- `WithCustomCollector`. -/
def WithCustomCollector (collector : Collector) (dp : DictionaryParser) : DictionaryParser :=
  { dp with collector := collector }

/-- `WithBaseURL`. -/
def WithBaseURL (baseURL : String) (dp : DictionaryParser) : DictionaryParser :=
  { dp with baseURL := baseURL }

/-- One registered callback receives one event. -/
def fire (ev : Event) (vars : List Locals) (cb : Callback) : List Locals :=
  match cb, ev with
  | .onHTML cell, .html e => vars.modify (fun st => OnHTML st e) cell
  | .onError cell, .error err => vars.modify (fun st => OnError st err) cell
  | _, _ => vars

/-- The collector delivers one event to every registered callback, in
registration order. -/
def dispatch (callbacks : List Callback) (vars : List Locals) (ev : Event) : List Locals :=
  callbacks.foldl (fire ev) vars

/-- The local variables of a new `ParseWord` call (lines 74-76 and 108). -/
def initLocals (word : String) : Locals :=
  { wordData := { Word := word, Definitions := [] }
    foundFirstDefinition := false
    resultErr := none }

/-- State of a `ParseWord` call when `dp.collector.Visit(url)` has returned. -/
structure Visited where
  locals : Locals
  err : Option GoError
  dp : DictionaryParser
deriving DecidableEq, Repr

/-- `ParseWord` up to and including `err := dp.collector.Visit(url)` (lines
74-124).  `visit` is what the collector does for a URL. -/
def ParseWordVisit (dp : DictionaryParser) (visit : String → VisitResult) (word : String) :
    Visited :=
  let init := initLocals word
  let cell := dp.collector.vars.length
  let url := dp.baseURL ++ word
  let callbacks := dp.collector.callbacks ++ [.onHTML cell, .onError cell, .onRequest]
  let r := visit url
  let vars := r.events.foldl (dispatch callbacks) (dp.collector.vars ++ [init])
  { locals := vars.getD cell init
    err := r.ret
    dp := { dp with collector := { callbacks := callbacks, vars := vars } } }

/-- `ParseWord` (lines 73-131): the returned `(WordData, error)` and the parser
afterwards. -/
def ParseWord (dp : DictionaryParser) (visit : String → VisitResult) (word : String) :
    (WordData × Option GoError) × DictionaryParser :=
  let v := ParseWordVisit dp visit word
  match v.err with
  | some err => ((WordData.zero, some (ErrorfScrape err)), v.dp)
  | none => ((v.locals.wordData, v.locals.resultErr), v.dp)

/-- The variables that a closure captured lie below index `n`. -/
def Callback.below (n : Nat) : Callback → Bool
  | .onHTML cell => decide (cell < n)
  | .onError cell => decide (cell < n)
  | .onRequest => true

/-- No registered closure refers to variables that do not exist. -/
def Collector.WellFormed (c : Collector) : Prop :=
  ∀ cb ∈ c.callbacks, cb.below c.vars.length = true

instance (c : Collector) : Decidable c.WellFormed :=
  inferInstanceAs (Decidable (∀ cb ∈ c.callbacks, cb.below c.vars.length = true))

/-! ## Reading the events -/

/-- The elements delivered to the extraction callback, in order. -/
def htmlEvents (events : List Event) : List HTMLElement :=
  events.filterMap fun ev => match ev with | .html e => some e | .error _ => none

/-- The errors delivered to the error callback, in order. -/
def errorEvents (events : List Event) : List GoError :=
  events.filterMap fun ev => match ev with | .error err => some err | .html _ => none

/-- The definitions that the extraction callback collects from one container
when it processes it. -/
def extract (e : HTMLElement) : List Definition :=
  e.defBlocks.foldl defBlockStep []

/-- The definitions collected from a sequence of matching containers: those of
the first one, if there is one. -/
def firstDefs : List HTMLElement → List Definition
  | [] => []
  | c :: _ => extract c

/-- One event as seen by the closures of a single call. -/
def step (st : Locals) : Event → Locals
  | .html e => OnHTML st e
  | .error err => OnError st err

/-- The value of `resultErr` after the error callback received `errs`. -/
def aggregateAll (resultErr : Option GoError) (errs : List GoError) : Option GoError :=
  errs.foldl (fun r err => some (aggregate r err)) resultErr

/-- The successive values of `resultErr` while the error callback receives
`errs`, starting from `resultErr`. -/
def aggregates (resultErr : Option GoError) : List GoError → List GoError
  | [] => []
  | err :: errs => aggregate resultErr err :: aggregates (some (aggregate resultErr err)) errs

/-- Two matching containers: the first has no definition block with text, the
second has a valid one. -/
def twoContainers : String → VisitResult := fun _ =>
  { events := [.html ⟨[⟨"  ", ["lost"]⟩]⟩, .html ⟨[⟨"a second entry", ["never read"]⟩]⟩]
    ret := none }

/-- The scenario for the word "run": one container, a block with text and a
block without. -/
def runDocument : String → VisitResult := fun _ =>
  { events := [.html ⟨[⟨"to move fast", ["He ran home."]⟩, ⟨"", ["ignored"]⟩]⟩]
    ret := none }

/-- One container with one block whose texts carry surrounding white space. -/
def walkDocument : String → VisitResult := fun _ =>
  { events := [.html ⟨[⟨"  to walk quickly  ", ["  She ran fast.  "]⟩]⟩]
    ret := none }

/-- One container with one block; one of its three examples is white space
only. -/
def mixedDocument : String → VisitResult := fun _ =>
  { events := [.html ⟨[⟨"  to walk quickly  ", ["  She ran fast.  ", " \t\n", "ok"]⟩]⟩]
    ret := none }

/-- Two errors during one fetch, the visit returns nil. -/
def twoErrors : String → VisitResult := fun _ =>
  { events := [.error (.plain "malformed response"), .error (.plain "timeout")]
    ret := none }

/-- One error during the fetch, the visit returns nil. -/
def oneError : String → VisitResult := fun _ =>
  { events := [.error (.plain "timeout")]
    ret := none }

/-- An error is delivered to the error callback and the visit returns another
error. -/
def errorThenFailure : String → VisitResult := fun _ =>
  { events := [.error (.plain "timeout")]
    ret := some (.plain "bad url") }

/-- A container is extracted, then the fetch fails: the error is delivered to
the error callback and returned by the visit. -/
def extractionThenFailure : String → VisitResult := fun _ =>
  { events := [.html ⟨[⟨"to move fast", ["He ran home."]⟩]⟩, .error (.plain "timeout")]
    ret := some (.plain "timeout") }

/-- A container is extracted, an error is delivered to the error callback, and
the visit returns nil. -/
def extractionThenError : String → VisitResult := fun _ =>
  { events := [.html ⟨[⟨"to move fast", ["He ran home."]⟩]⟩, .error (.plain "timeout")]
    ret := none }

/-- One container whose `.def-block` traversal visits a block with text and
then a block without text, both with the example text "shared example" among
their `.examp` descendants (two examples with equal text, or the second block
nested inside the first). -/
def sharedDocument : String → VisitResult := fun _ =>
  { events := [.html ⟨[⟨"outer", ["shared example"]⟩, ⟨"  ", ["shared example"]⟩]⟩]
    ret := none }

/-- The fetch fails: the error is delivered to the error callback and the visit
returns the same error. -/
def notFound : String → VisitResult := fun _ =>
  { events := [.error (.plain "Not Found")]
    ret := some (.plain "Not Found") }

/-- The callbacks on the collector of a new parser after `k` calls of
`ParseWord`: call number `i` registered its three closures over its own
variables, at index `i`. -/
def registered : Nat → List Callback
  | 0 => []
  | k + 1 => registered k ++ [.onHTML k, .onError k, .onRequest]

/-- The parser after a sequence of `ParseWord` calls, each with what the
collector did during that call and the word asked for. -/
def ParseWords (dp : DictionaryParser) (calls : List ((String → VisitResult) × String)) :
    DictionaryParser :=
  calls.foldl (fun d c => (ParseWord d c.1 c.2).2) dp

/-- The state of a parser that was new before `k` calls of `ParseWord`. -/
def Reused (baseURL : String) (k : Nat) (dp : DictionaryParser) : Prop :=
  dp.baseURL = baseURL ∧ dp.collector.callbacks = registered k ∧ dp.collector.vars.length = k

instance (baseURL : String) (k : Nat) (dp : DictionaryParser) : Decidable (Reused baseURL k dp) :=
  inferInstanceAs (Decidable (_ ∧ _ ∧ _))

/-! ## Helper lemmas: the callbacks of other calls -/

theorem fire_getElem (ev : Event) (vs : List Locals) (cb : Callback) (n : Nat)
    (h1 : ∀ cell, cb = .onHTML cell → cell ≠ n) (h2 : ∀ cell, cb = .onError cell → cell ≠ n) :
    (fire ev vs cb)[n]? = vs[n]? := by
  cases cb with
  | onHTML cell =>
    cases ev with
    | html e =>
      have hne := h1 cell rfl
      simp [fire, List.getElem?_modify, hne]
    | error err => simp [fire]
  | onError cell =>
    cases ev with
    | html e => simp [fire]
    | error err =>
      have hne := h2 cell rfl
      simp [fire, List.getElem?_modify, hne]
  | onRequest => cases ev <;> simp [fire]

theorem foldl_fire_getElem (ev : Event) (cbs : List Callback) (n : Nat)
    (h : ∀ cb ∈ cbs, (∀ cell, cb = .onHTML cell → cell ≠ n) ∧
      (∀ cell, cb = .onError cell → cell ≠ n)) (vs : List Locals) :
    (cbs.foldl (fire ev) vs)[n]? = vs[n]? := by
  induction cbs generalizing vs with
  | nil => rfl
  | cons cb cbs ih =>
    rw [List.foldl_cons, ih (fun c hc => h c (List.mem_cons_of_mem _ hc))]
    exact fire_getElem ev vs cb n (h cb (List.mem_cons_self _ _)).1 (h cb (List.mem_cons_self _ _)).2

theorem dispatch_getElem (ev : Event) (cbs : List Callback) (n : Nat)
    (h : ∀ cb ∈ cbs, (∀ cell, cb = .onHTML cell → cell ≠ n) ∧
      (∀ cell, cb = .onError cell → cell ≠ n)) (vs : List Locals) :
    (dispatch (cbs ++ [.onHTML n, .onError n, .onRequest]) vs ev)[n]?
      = (vs[n]?).map (fun st => step st ev) := by
  unfold dispatch
  rw [List.foldl_append]
  cases ev with
  | html e =>
    simp only [List.foldl_cons, List.foldl_nil, fire, List.getElem?_modify, step, if_true]
    rw [foldl_fire_getElem _ cbs n h vs]
    rfl
  | error err =>
    simp only [List.foldl_cons, List.foldl_nil, fire, List.getElem?_modify, step, if_true]
    rw [foldl_fire_getElem _ cbs n h vs]
    rfl

theorem events_getElem (events : List Event) (cbs : List Callback) (n : Nat)
    (h : ∀ cb ∈ cbs, (∀ cell, cb = .onHTML cell → cell ≠ n) ∧
      (∀ cell, cb = .onError cell → cell ≠ n)) (vs : List Locals) :
    (events.foldl (dispatch (cbs ++ [.onHTML n, .onError n, .onRequest])) vs)[n]?
      = (vs[n]?).map (fun st => events.foldl step st) := by
  induction events generalizing vs with
  | nil => simp
  | cons ev events ih =>
    rw [List.foldl_cons, ih, dispatch_getElem ev cbs n h vs]
    cases vs[n]? <;> simp

theorem below_ne (cbs : List Callback) (n : Nat) (h : ∀ cb ∈ cbs, cb.below n = true) :
    ∀ cb ∈ cbs, (∀ cell, cb = .onHTML cell → cell ≠ n) ∧
      (∀ cell, cb = .onError cell → cell ≠ n) := by
  intro cb hcb
  have hb := h cb hcb
  constructor
  · intro cell hc
    subst hc
    exact Nat.ne_of_lt (of_decide_eq_true hb)
  · intro cell hc
    subst hc
    exact Nat.ne_of_lt (of_decide_eq_true hb)

/-- The locals of a call are driven by the events alone. -/
theorem locals_eq (dp : DictionaryParser) (visit : String → VisitResult) (word : String)
    (hwf : dp.collector.WellFormed) :
    (ParseWordVisit dp visit word).locals
      = (visit (dp.baseURL ++ word)).events.foldl step (initLocals word) := by
  have h := below_ne _ _ hwf
  simp only [ParseWordVisit, List.getD_eq_getElem?_getD]
  rw [events_getElem _ _ _ h]
  simp [initLocals]

/-! ## Helper lemmas: one call -/

theorem step_resultErr (events : List Event) (st : Locals) :
    (events.foldl step st).resultErr = aggregateAll st.resultErr (errorEvents events) := by
  induction events generalizing st with
  | nil => rfl
  | cons ev events ih =>
    rw [List.foldl_cons, ih]
    cases ev with
    | html e =>
      have h : (step st (.html e)).resultErr = st.resultErr := by
        simp only [step, OnHTML]; split <;> rfl
      rw [h]; rfl
    | error err => rfl

theorem step_found (events : List Event) (st : Locals) (h : st.foundFirstDefinition = true) :
    (events.foldl step st).wordData = st.wordData := by
  induction events generalizing st with
  | nil => rfl
  | cons ev events ih =>
    rw [List.foldl_cons]
    cases ev with
    | html e =>
      have hs : step st (.html e) = st := by simp [step, OnHTML, h]
      rw [hs]; exact ih st h
    | error err => exact ih (OnError st err) h

theorem step_wordData (events : List Event) (st : Locals)
    (h : st.foundFirstDefinition = false) (hd : st.wordData.Definitions = []) :
    (events.foldl step st).wordData
      = { Word := st.wordData.Word, Definitions := firstDefs (htmlEvents events) } := by
  induction events generalizing st with
  | nil =>
    show st.wordData = { Word := st.wordData.Word, Definitions := [] }
    rw [← hd]
  | cons ev events ih =>
    rw [List.foldl_cons]
    cases ev with
    | html e =>
      rw [step_found events _ (by simp [step, OnHTML, h])]
      simp [step, OnHTML, h, hd, htmlEvents, firstDefs, extract]
    | error err =>
      have := ih (step st (.error err)) h hd
      rw [this]
      simp [step, OnError, htmlEvents]

/-- What `ParseWord` returns, as a function of what the visit does. -/
theorem ParseWord_eq (dp : DictionaryParser) (visit : String → VisitResult) (word : String)
    (hwf : dp.collector.WellFormed) :
    (ParseWord dp visit word).1 =
      match (visit (dp.baseURL ++ word)).ret with
      | some err => (WordData.zero, some (ErrorfScrape err))
      | none =>
        ({ Word := word
           Definitions := firstDefs (htmlEvents (visit (dp.baseURL ++ word)).events) },
         aggregateAll none (errorEvents (visit (dp.baseURL ++ word)).events)) := by
  have hl := locals_eq dp visit word hwf
  have he : (ParseWordVisit dp visit word).err = (visit (dp.baseURL ++ word)).ret := rfl
  unfold ParseWord
  simp only [he]
  cases (visit (dp.baseURL ++ word)).ret with
  | some err => rfl
  | none =>
    simp only [hl, step_resultErr, step_wordData _ (initLocals word) rfl rfl]
    rfl

/-! ## Helper lemmas: trimming -/

theorem trim_dropWhile (l : List Char) :
    ((l.dropWhile IsSpace).rdropWhile IsSpace).dropWhile IsSpace
      = (l.dropWhile IsSpace).rdropWhile IsSpace := by
  have hpre : (l.dropWhile IsSpace).rdropWhile IsSpace <+: l.dropWhile IsSpace :=
    List.rdropWhile_prefix IsSpace _
  have hhead := List.head?_dropWhile_not IsSpace l
  obtain ⟨t, ht⟩ := hpre
  cases hm : (l.dropWhile IsSpace).rdropWhile IsSpace with
  | nil => rfl
  | cons x xs =>
    rw [hm] at ht
    rw [← ht] at hhead
    simp only [List.cons_append, List.head?_cons] at hhead
    simp [hhead]

theorem TrimSpace_idem (s : String) : TrimSpace (TrimSpace s) = TrimSpace s := by
  unfold TrimSpace
  simp only [trim_dropWhile, List.rdropWhile_idempotent]

theorem foldl_exampStep (examp : List String) (acc : List String) :
    examp.foldl exampStep acc = acc ++ (examp.map TrimSpace).filter (fun x => x ≠ "") := by
  induction examp generalizing acc with
  | nil => simp
  | cons x xs ih =>
    rw [List.foldl_cons, ih]
    by_cases hx : TrimSpace x = "" <;> simp [exampStep, hx]

theorem defBlockStep_blank (acc : List Definition) (b : DefBlock)
    (hb : TrimSpace b.ChildText = "") : defBlockStep acc b = acc := by
  simp [defBlockStep, hb]

theorem defBlockStep_text (acc : List Definition) (b : DefBlock)
    (hb : TrimSpace b.ChildText ≠ "") :
    defBlockStep acc b = acc ++
      [{ Definition := TrimSpace b.ChildText
         Examples := (b.examp.map TrimSpace).filter (fun x => x ≠ "") }] := by
  simp [defBlockStep, hb, foldl_exampStep]

theorem foldl_defBlockStep (bs : List DefBlock) (acc : List Definition) :
    bs.foldl defBlockStep acc = acc ++ bs.foldl defBlockStep [] := by
  induction bs generalizing acc with
  | nil => simp
  | cons b bs ih =>
    rw [List.foldl_cons, List.foldl_cons, ih, ih (defBlockStep [] b)]
    by_cases hb : TrimSpace b.ChildText = ""
    · simp [defBlockStep_blank _ b hb]
    · simp [defBlockStep_text _ b hb]

theorem extract_append (pre post : List DefBlock) :
    extract ⟨pre ++ post⟩ = extract ⟨pre⟩ ++ extract ⟨post⟩ := by
  simp only [extract, List.foldl_append]
  exact foldl_defBlockStep post _

theorem extract_cons (b : DefBlock) (post : List DefBlock) :
    extract ⟨b :: post⟩ = defBlockStep [] b ++ extract ⟨post⟩ := by
  simp only [extract, List.foldl_cons]
  exact foldl_defBlockStep post _

theorem extract_trimmed (bs : List DefBlock) : ∀ d ∈ extract ⟨bs⟩,
    d.Definition ≠ "" ∧ TrimSpace d.Definition = d.Definition ∧
      ∀ ex ∈ d.Examples, ex ≠ "" ∧ TrimSpace ex = ex := by
  induction bs with
  | nil => intro d hd; simp [extract] at hd
  | cons b bs ih =>
    intro d hd
    rw [extract_cons] at hd
    rcases List.mem_append.1 hd with h | h
    · by_cases hb : TrimSpace b.ChildText = ""
      · rw [defBlockStep_blank _ b hb] at h; simp at h
      · rw [defBlockStep_text _ b hb] at h
        simp only [List.nil_append, List.mem_singleton] at h
        subst h
        refine ⟨hb, TrimSpace_idem _, ?_⟩
        intro ex hex
        simp only [List.mem_filter, List.mem_map, decide_eq_true_eq] at hex
        obtain ⟨⟨x, _, rfl⟩, hne⟩ := hex
        exact ⟨hne, TrimSpace_idem x⟩
    · exact ih d h

/-! ## Helper lemmas: the error aggregate -/

theorem aggregateAll_concat (r : Option GoError) (l : List GoError) (e : GoError) :
    aggregateAll r (l ++ [e]) = some (aggregate (aggregateAll r l) e) := by
  simp [aggregateAll, List.foldl_append]

theorem aggregates_concat (l : List GoError) (r : Option GoError) (e : GoError) :
    aggregates r (l ++ [e]) = aggregates r l ++ [aggregate (aggregateAll r l) e] := by
  induction l generalizing r with
  | nil => rfl
  | cons x xs ih =>
    show aggregate r x :: aggregates (some (aggregate r x)) (xs ++ [e]) = _
    rw [ih]
    rfl

theorem aggregateAll_some (l : List GoError) (hl : l ≠ []) :
    ∃ a, aggregateAll none l = some a := by
  induction l using List.reverseRecOn with
  | nil => exact absurd rfl hl
  | append_singleton l e _ => exact ⟨_, aggregateAll_concat none l e⟩

theorem intercalate_go_append (sep x : String) (l : List String) (acc : String) :
    String.intercalate.go (x ++ acc) sep l = x ++ String.intercalate.go acc sep l := by
  induction l generalizing acc with
  | nil => rfl
  | cons a l ih =>
    simp only [String.intercalate.go]
    rw [String.append_assoc, String.append_assoc, ih, String.append_assoc]

theorem intercalate_cons_cons (sep a b : String) (l : List String) :
    sep.intercalate (a :: b :: l) = a ++ sep ++ sep.intercalate (b :: l) := by
  simp only [String.intercalate, String.intercalate.go]
  rw [String.append_assoc, String.append_assoc, intercalate_go_append, intercalate_go_append]

theorem Error_ErrorfJoin (e prev : GoError) :
    (ErrorfJoin e prev).Error = e.Error ++ "; " ++ prev.Error := rfl

theorem aggregate_message (l : List GoError) (hl : l ≠ []) :
    ∃ a, aggregateAll none l = some a ∧
      a.Error = "; ".intercalate (l.reverse.map GoError.Error) := by
  induction l using List.reverseRecOn with
  | nil => exact absurd rfl hl
  | append_singleton l e ih =>
    refine ⟨_, aggregateAll_concat none l e, ?_⟩
    cases l using List.reverseRecOn with
    | nil => rfl
    | append_singleton l2 e2 =>
      obtain ⟨a, ha, hmsg⟩ := ih (by simp)
      rw [ha]
      simp only [aggregate, Error_ErrorfJoin, hmsg, List.reverse_append,
        List.reverse_cons, List.reverse_nil, List.nil_append, List.cons_append, List.map_cons]
      rw [intercalate_cons_cons]

theorem aggregate_contains (l : List GoError) :
    ∀ a, aggregateAll none l = some a → ∀ e ∈ l, e.Error.data <:+: a.Error.data := by
  induction l using List.reverseRecOn with
  | nil => intro a _ e he; simp at he
  | append_singleton l e0 ih =>
    intro a ha e he
    rw [aggregateAll_concat] at ha
    cases hl : aggregateAll none l with
    | none =>
      have hnil : l = [] := by
        by_contra hne
        obtain ⟨b, hb⟩ := aggregateAll_some l hne
        rw [hb] at hl; cases hl
      subst hnil
      rw [hl] at ha
      simp only [aggregate, Option.some.injEq] at ha
      simp only [List.nil_append, List.mem_singleton] at he
      subst ha; subst he
      exact List.infix_refl _
    | some prev =>
      rw [hl] at ha
      simp only [aggregate, Option.some.injEq] at ha
      subst ha
      simp only [Error_ErrorfJoin, String.data_append]
      rcases List.mem_append.1 he with h | h
      · exact (ih prev hl e h).trans (List.suffix_append _ _).isInfix
      · simp only [List.mem_singleton] at h
        subst h
        exact (List.prefix_append _ _).isInfix.trans (List.prefix_append _ _).isInfix

theorem unwrapChain_eq (e : GoError) : e.unwrapChain = e :: e.unwrapChain.tail := by
  cases e <;> rfl

theorem aggregate_chain (l : List GoError) (e1 : GoError) :
    ∃ a, aggregateAll none (e1 :: l) = some a ∧
      a.unwrapChain = (aggregates none (e1 :: l)).reverse ++ e1.unwrapChain.tail := by
  induction l using List.reverseRecOn with
  | nil => exact ⟨e1, rfl, by simpa [aggregates, aggregate] using unwrapChain_eq e1⟩
  | append_singleton l e ih =>
    obtain ⟨prev, hprev, hchain⟩ := ih
    refine ⟨ErrorfJoin e prev, ?_, ?_⟩
    · rw [← List.cons_append, aggregateAll_concat, hprev]; rfl
    · rw [← List.cons_append, aggregates_concat, hprev]
      simp only [List.reverse_append, List.reverse_cons, List.reverse_nil, List.nil_append,
        List.cons_append, aggregate, ErrorfJoin, GoError.unwrapChain, hchain]

theorem aggregate_unwrap (l : List GoError) (hl : 2 ≤ l.length) :
    ∃ a, aggregateAll none l = some a ∧ a.Unwrap = aggregateAll none l.dropLast := by
  induction l using List.reverseRecOn with
  | nil => simp at hl
  | append_singleton pre e _ =>
    have hpre : pre ≠ [] := by
      intro h; subst h; simp at hl
    obtain ⟨prev, hprev⟩ := aggregateAll_some pre hpre
    refine ⟨ErrorfJoin e prev, ?_, ?_⟩
    · rw [aggregateAll_concat, hprev]; rfl
    · rw [List.dropLast_concat, hprev]; rfl

theorem resultErr_eq (dp : DictionaryParser) (visit : String → VisitResult) (word : String)
    (hwf : dp.collector.WellFormed) :
    (ParseWordVisit dp visit word).locals.resultErr
      = aggregateAll none (errorEvents (visit (dp.baseURL ++ word)).events) := by
  rw [locals_eq dp visit word hwf, step_resultErr]
  rfl

theorem wordData_eq (dp : DictionaryParser) (visit : String → VisitResult) (word : String)
    (hwf : dp.collector.WellFormed) :
    (ParseWordVisit dp visit word).locals.wordData
      = { Word := word
          Definitions := firstDefs (htmlEvents (visit (dp.baseURL ++ word)).events) } := by
  rw [locals_eq dp visit word hwf, step_wordData _ (initLocals word) rfl rfl]
  rfl

theorem ParseWord_ok_locals (dp : DictionaryParser) (visit : String → VisitResult)
    (word : String) (hret : (visit (dp.baseURL ++ word)).ret = none) :
    (ParseWord dp visit word).1
      = ((ParseWordVisit dp visit word).locals.wordData,
         (ParseWordVisit dp visit word).locals.resultErr) := by
  have he : (ParseWordVisit dp visit word).err = none := hret
  simp only [ParseWord, he]

theorem wellFormed_new (baseURL : String) :
    (WithBaseURL baseURL NewDictionaryParser).collector.WellFormed := by
  intro cb hcb
  simp [WithBaseURL, NewDictionaryParser] at hcb

/-- What `ParseWord` returns when the visit succeeds. -/
theorem ParseWord_ok (dp : DictionaryParser) (visit : String → VisitResult) (word : String)
    (hwf : dp.collector.WellFormed) (hret : (visit (dp.baseURL ++ word)).ret = none) :
    (ParseWord dp visit word).1 =
      ({ Word := word
         Definitions := firstDefs (htmlEvents (visit (dp.baseURL ++ word)).events) },
       aggregateAll none (errorEvents (visit (dp.baseURL ++ word)).events)) := by
  rw [ParseWord_eq dp visit word hwf, hret]

/-! ## The claims -/

/-- C1. First-match policy: when the visit succeeds and the extraction callback
fires for the containers `c1, c2, ...` (two or more, in document order), the
returned `Definitions` are the definitions extracted from `c1` alone; they are
also what `ParseWord` returns when `c1` is the only container. -/
theorem ParseWord_first_match (dp : DictionaryParser) (visit : String → VisitResult)
    (word : String) (c1 c2 : HTMLElement) (rest : List HTMLElement)
    (hwf : dp.collector.WellFormed)
    (hret : (visit (dp.baseURL ++ word)).ret = none)
    (hev : htmlEvents (visit (dp.baseURL ++ word)).events = c1 :: c2 :: rest) :
    (ParseWord dp visit word).1.1.Definitions = extract c1 ∧
    (ParseWord dp visit word).1.1.Definitions
      = (ParseWord dp (fun _ => ⟨[.html c1], none⟩) word).1.1.Definitions := by
  rw [ParseWord_ok dp visit word hwf hret, ParseWord_ok dp _ word hwf rfl, hev]
  exact ⟨rfl, rfl⟩

theorem ParseWord_first_match_witness :
    NewDictionaryParser.collector.WellFormed ∧
    (ParseWord NewDictionaryParser twoContainers "run").1.1.Definitions = [] ∧
    (ParseWord NewDictionaryParser twoContainers "run").1.1.Definitions
      = extract ⟨[⟨"  ", ["lost"]⟩]⟩ :=
  ⟨wellFormed_new _, by decide,
    (ParseWord_first_match NewDictionaryParser twoContainers "run" ⟨[⟨"  ", ["lost"]⟩]⟩
      ⟨[⟨"a second entry", ["never read"]⟩]⟩ [] (wellFormed_new _) rfl rfl).1⟩

/-- C2 fails as stated: the block with the blank definition text "  " has the
example text "shared example", and this text is in the result, as an example of
the block "outer". -/
theorem blank_block_example_text_in_result :
    TrimSpace "  " = "" ∧
    (ParseWord NewDictionaryParser sharedDocument "run").1
      = (⟨"run", [⟨"outer", ["shared example"]⟩]⟩, none) ∧
    ∃ d ∈ (ParseWord NewDictionaryParser sharedDocument "run").1.1.Definitions,
      "shared example" ∈ d.Examples :=
  ⟨by decide, by decide, ⟨"outer", ["shared example"]⟩, by decide, by decide⟩

/-- C2, amended. A definition block whose definition text trims to the empty
string produces no `Definition`, and its own traversal adds nothing, whatever
its examples are: the returned `Definitions` are those that the blocks before
it produce, followed by those that the blocks after it produce, each from its
own definition text and its own examples; this is the result for the same
blocks without the blank one, and for the same blocks with any other examples
in the blank one. -/
theorem ParseWord_blank_block (dp : DictionaryParser) (visit : String → VisitResult)
    (word : String) (pre post : List DefBlock) (b : DefBlock) (others : List HTMLElement)
    (hwf : dp.collector.WellFormed)
    (hret : (visit (dp.baseURL ++ word)).ret = none)
    (hev : htmlEvents (visit (dp.baseURL ++ word)).events = ⟨pre ++ b :: post⟩ :: others)
    (hb : TrimSpace b.ChildText = "") :
    (ParseWord dp visit word).1.1.Definitions = extract ⟨pre ++ post⟩ ∧
    (ParseWord dp visit word).1.1.Definitions = extract ⟨pre⟩ ++ extract ⟨post⟩ ∧
    ∀ examp2 : List String,
      (ParseWord dp visit word).1.1.Definitions
        = extract ⟨pre ++ ⟨b.ChildText, examp2⟩ :: post⟩ := by
  rw [ParseWord_ok dp visit word hwf hret, hev]
  simp only [firstDefs]
  rw [extract_append, extract_append, extract_cons, defBlockStep_blank _ b hb]
  refine ⟨rfl, rfl, fun examp2 => ?_⟩
  rw [extract_append, extract_cons, defBlockStep_blank _ ⟨b.ChildText, examp2⟩ hb]

theorem ParseWord_blank_block_witness :
    TrimSpace "" = "" ∧
    (ParseWord NewDictionaryParser runDocument "run").1
      = (⟨"run", [⟨"to move fast", ["He ran home."]⟩]⟩, none) ∧
    (ParseWord NewDictionaryParser runDocument "run").1.1.Definitions
      = extract ⟨[⟨"to move fast", ["He ran home."]⟩]⟩ ++ extract ⟨[]⟩ :=
  ⟨by decide, by decide,
    (ParseWord_blank_block NewDictionaryParser runDocument "run"
      [⟨"to move fast", ["He ran home."]⟩] [] ⟨"", ["ignored"]⟩ [] (wellFormed_new _) rfl rfl
      (by decide)).2.1⟩

/-- C3. For a definition block with non-blank definition text, the `Definition`
created for it stands at the block's place in the result, with the trimmed
definition text, and its `Examples` are the block's example texts, each
trimmed, with the empty ones removed, in document order. -/
theorem ParseWord_examples (dp : DictionaryParser) (visit : String → VisitResult)
    (word : String) (pre post : List DefBlock) (b : DefBlock) (others : List HTMLElement)
    (hwf : dp.collector.WellFormed)
    (hret : (visit (dp.baseURL ++ word)).ret = none)
    (hev : htmlEvents (visit (dp.baseURL ++ word)).events = ⟨pre ++ b :: post⟩ :: others)
    (hb : TrimSpace b.ChildText ≠ "") :
    (ParseWord dp visit word).1.1.Definitions
      = extract ⟨pre⟩ ++
        [{ Definition := TrimSpace b.ChildText
           Examples := (b.examp.map TrimSpace).filter (fun x => x ≠ "") }] ++
        extract ⟨post⟩ := by
  rw [ParseWord_ok dp visit word hwf hret, hev]
  simp only [firstDefs]
  rw [extract_append, extract_cons, defBlockStep_text _ b hb]
  simp

theorem ParseWord_examples_witness :
    TrimSpace "  to walk quickly  " ≠ "" ∧
    (ParseWord NewDictionaryParser mixedDocument "walk").1.1.Definitions
      = extract ⟨[]⟩ ++
        [{ Definition := TrimSpace "  to walk quickly  "
           Examples := (["  She ran fast.  ", " \t\n", "ok"].map TrimSpace).filter
             (fun x => x ≠ "") }] ++
        extract ⟨[]⟩ ∧
    (["  She ran fast.  ", " \t\n", "ok"].map TrimSpace).filter (fun x => x ≠ "")
      = ["She ran fast.", "ok"] :=
  ⟨by decide,
    ParseWord_examples NewDictionaryParser mixedDocument "walk" []
      [] ⟨"  to walk quickly  ", ["  She ran fast.  ", " \t\n", "ok"]⟩ [] (wellFormed_new _)
      rfl rfl (by decide),
    by decide⟩

/-- C4. Data-model invariant: every `Definition` that `ParseWord` returns has a
definition text that is non-empty and trimmed, and every one of its examples is
non-empty and trimmed. -/
theorem ParseWord_trimmed (dp : DictionaryParser) (visit : String → VisitResult)
    (word : String) (hwf : dp.collector.WellFormed) :
    ∀ d ∈ (ParseWord dp visit word).1.1.Definitions,
      d.Definition ≠ "" ∧ TrimSpace d.Definition = d.Definition ∧
        ∀ ex ∈ d.Examples, ex ≠ "" ∧ TrimSpace ex = ex := by
  intro d hd
  rw [ParseWord_eq dp visit word hwf] at hd
  cases hr : (visit (dp.baseURL ++ word)).ret with
  | some err =>
    rw [hr] at hd
    simp [WordData.zero] at hd
  | none =>
    rw [hr] at hd
    simp only at hd
    cases hh : htmlEvents (visit (dp.baseURL ++ word)).events with
    | nil => rw [hh] at hd; simp [firstDefs] at hd
    | cons c cs =>
      rw [hh] at hd
      exact extract_trimmed c.defBlocks d hd

theorem ParseWord_trimmed_witness :
    (ParseWord NewDictionaryParser walkDocument "walk").1.1.Definitions
      = [⟨"to walk quickly", ["She ran fast."]⟩] ∧
    ((⟨"to walk quickly", ["She ran fast."]⟩ : Definition).Definition ≠ "" ∧
      TrimSpace (⟨"to walk quickly", ["She ran fast."]⟩ : Definition).Definition
        = (⟨"to walk quickly", ["She ran fast."]⟩ : Definition).Definition ∧
      ∀ ex ∈ (⟨"to walk quickly", ["She ran fast."]⟩ : Definition).Examples,
        ex ≠ "" ∧ TrimSpace ex = ex) :=
  ⟨by decide,
    ParseWord_trimmed NewDictionaryParser walkDocument "walk" (wellFormed_new _) _ (by decide)⟩

/-- C5. Message order of the error aggregate: when the error callback receives
`e1, ..., en` (at least one), `resultErr` is non-nil with the message
`msg(en); ...; msg(e1)`; it is `e1` itself when `e1` is the only error; every
message is contained in it; and it is the error returned when the visit
returns nil. -/
theorem aggregate_message_order (dp : DictionaryParser) (visit : String → VisitResult)
    (word : String) (e1 : GoError) (rest : List GoError)
    (hwf : dp.collector.WellFormed)
    (hev : errorEvents (visit (dp.baseURL ++ word)).events = e1 :: rest) :
    ∃ a, (ParseWordVisit dp visit word).locals.resultErr = some a ∧
      a.Error = "; ".intercalate ((e1 :: rest).reverse.map GoError.Error) ∧
      (rest = [] → a = e1) ∧
      (∀ e ∈ e1 :: rest, e.Error.data <:+: a.Error.data) ∧
      ((visit (dp.baseURL ++ word)).ret = none → (ParseWord dp visit word).1.2 = some a) := by
  obtain ⟨a, ha, hmsg⟩ := aggregate_message (e1 :: rest) (by simp)
  have hres := resultErr_eq dp visit word hwf
  rw [hev] at hres
  refine ⟨a, hres.trans ha, hmsg, ?_, aggregate_contains _ a ha, ?_⟩
  · intro hrest
    subst hrest
    exact (Option.some.inj ha).symm
  · intro hret
    rw [ParseWord_ok_locals dp visit word hret]
    exact hres.trans ha

theorem aggregate_message_order_witness :
    ∃ a, (ParseWordVisit NewDictionaryParser twoErrors "run").locals.resultErr = some a ∧
      a.Error = "timeout; malformed response" :=
  (aggregate_message_order NewDictionaryParser twoErrors "run" (.plain "malformed response")
    [.plain "timeout"] (wellFormed_new _) rfl).imp fun _ h => ⟨h.1, h.2.1.trans (by decide)⟩

/-- C6 fails as stated: with the errors "malformed response" and "timeout"
delivered in this order, the returned aggregate wraps "malformed response" only,
and the error "timeout" is not among the values reached by unwrapping. -/
theorem unwrap_misses_later_errors :
    GoError.plain "timeout" ∈ errorEvents (twoErrors "run").events ∧
    ∃ a, (ParseWord NewDictionaryParser twoErrors "run").1.2 = some a ∧
      a.unwrapChain
        = [.wrapError "timeout; malformed response" (.plain "malformed response"),
           .plain "malformed response"] ∧
      GoError.plain "timeout" ∉ a.unwrapChain :=
  ⟨by decide, _, rfl, by decide, by decide⟩

/-- C6, amended. When the error callback receives `e1, ..., en` (two or more),
the cause (`Unwrap`) of the final aggregate is the aggregate of `e1, ..., e(n-1)`,
and unwrapping the final aggregate repeatedly yields the successive aggregates,
latest first, down to `e1`, followed by what `e1` itself wraps; so `e1` is
reached as an error value. -/
theorem aggregate_unwrap_chain (dp : DictionaryParser) (visit : String → VisitResult)
    (word : String) (e1 e2 : GoError) (rest : List GoError)
    (hwf : dp.collector.WellFormed)
    (hev : errorEvents (visit (dp.baseURL ++ word)).events = e1 :: e2 :: rest) :
    ∃ a, (ParseWordVisit dp visit word).locals.resultErr = some a ∧
      a.Unwrap = aggregateAll none (e1 :: e2 :: rest).dropLast ∧
      a.unwrapChain = (aggregates none (e1 :: e2 :: rest)).reverse ++ e1.unwrapChain.tail ∧
      e1 ∈ a.unwrapChain := by
  obtain ⟨a, ha, hchain⟩ := aggregate_chain (e2 :: rest) e1
  obtain ⟨a2, ha2, hun⟩ := aggregate_unwrap (e1 :: e2 :: rest) (by simp)
  have hres := resultErr_eq dp visit word hwf
  rw [hev] at hres
  have haa : a2 = a := Option.some.inj (ha2.symm.trans ha)
  subst haa
  refine ⟨a2, hres.trans ha, hun, hchain, ?_⟩
  rw [hchain]
  simp [aggregates, aggregate]

theorem aggregate_unwrap_chain_witness :
    ∃ a, (ParseWordVisit NewDictionaryParser twoErrors "run").locals.resultErr = some a ∧
      a.Unwrap = some (.plain "malformed response") ∧
      GoError.plain "malformed response" ∈ a.unwrapChain :=
  (aggregate_unwrap_chain NewDictionaryParser twoErrors "run" (.plain "malformed response")
    (.plain "timeout") [] (wellFormed_new _) rfl).imp fun _ h => ⟨h.1, h.2.1, h.2.2.2⟩

/-- C7 fails as stated: the error "timeout" is delivered to the error callback,
the visit returns the error "bad url", and the error that `ParseWord` returns
does not contain the message "timeout". -/
theorem delivered_error_dropped :
    GoError.plain "timeout" ∈ errorEvents (errorThenFailure "run").events ∧
    ∃ a, (ParseWord NewDictionaryParser errorThenFailure "run").1.2 = some a ∧
      a.Error = "failed to scrape: bad url" ∧
      ¬ (GoError.plain "timeout").Error.data <:+: a.Error.data :=
  ⟨by decide, _, rfl, by decide, by decide⟩

/-- C7, amended. An error that was delivered to the error callback has its
message contained in the error that `ParseWord` returns whenever the visit
returns nil, and also when the visit returns a non-nil error whose message
contains that message (as when the visit returns the delivered error itself). -/
theorem errors_reported (dp : DictionaryParser) (visit : String → VisitResult)
    (word : String) (e : GoError)
    (hwf : dp.collector.WellFormed)
    (he : e ∈ errorEvents (visit (dp.baseURL ++ word)).events)
    (hret : (visit (dp.baseURL ++ word)).ret = none ∨
      ∃ err, (visit (dp.baseURL ++ word)).ret = some err ∧ e.Error.data <:+: err.Error.data) :
    ∃ a, (ParseWord dp visit word).1.2 = some a ∧ e.Error.data <:+: a.Error.data := by
  rcases hret with hnone | ⟨err, hsome, hin⟩
  · obtain ⟨a, ha⟩ := aggregateAll_some _ (List.ne_nil_of_mem he)
    refine ⟨a, ?_, aggregate_contains _ a ha e he⟩
    rw [ParseWord_ok dp visit word hwf hnone]
    exact ha
  · refine ⟨ErrorfScrape err, ?_, ?_⟩
    · rw [ParseWord_eq dp visit word hwf, hsome]
    · show e.Error.data <:+: ("failed to scrape: " ++ err.Error).data
      rw [String.data_append]
      exact hin.trans (List.suffix_append _ _).isInfix

theorem errors_reported_witness :
    (∃ a, (ParseWord NewDictionaryParser twoErrors "run").1.2 = some a ∧
      "malformed response".data <:+: a.Error.data) ∧
    (∃ a, (ParseWord NewDictionaryParser notFound "run").1.2 = some a ∧
      "Not Found".data <:+: a.Error.data) :=
  ⟨errors_reported NewDictionaryParser twoErrors "run" (.plain "malformed response")
      (wellFormed_new _) (by decide) (Or.inl rfl),
    errors_reported NewDictionaryParser notFound "run" (.plain "Not Found")
      (wellFormed_new _) (by decide) (Or.inr ⟨.plain "Not Found", rfl, List.infix_refl _⟩)⟩

/-- C8. When the visit returns a non-nil error `err`, `ParseWord` returns the
zero `WordData` (empty word, no definitions) and an error with the message
`"failed to scrape: " ++ msg(err)` whose cause is `err`. -/
theorem visit_failure (dp : DictionaryParser) (visit : String → VisitResult)
    (word : String) (err : GoError)
    (hret : (visit (dp.baseURL ++ word)).ret = some err) :
    ∃ a, (ParseWord dp visit word).1 = (⟨"", []⟩, some a) ∧
      a.Error = "failed to scrape: " ++ err.Error ∧ a.Unwrap = some err := by
  have he : (ParseWordVisit dp visit word).err = some err := hret
  refine ⟨ErrorfScrape err, ?_, rfl, rfl⟩
  simp only [ParseWord, he]
  rfl

theorem visit_failure_witness :
    (ParseWordVisit NewDictionaryParser extractionThenFailure "run").locals.wordData.Definitions
      = [⟨"to move fast", ["He ran home."]⟩] ∧
    ∃ a, (ParseWord NewDictionaryParser extractionThenFailure "run").1 = (⟨"", []⟩, some a) ∧
      a.Error = "failed to scrape: " ++ (GoError.plain "timeout").Error ∧
      a.Unwrap = some (.plain "timeout") :=
  ⟨by decide, visit_failure NewDictionaryParser extractionThenFailure "run" (.plain "timeout") rfl⟩

/-- C9 fails as stated: the extraction callback collects a definition for
"run", then the fetch fails with "timeout"; `ParseWord` returns the zero
`WordData`, not the word with the collected definitions. -/
theorem collected_result_withheld :
    (ParseWordVisit NewDictionaryParser extractionThenFailure "run").locals.wordData
      = ⟨"run", [⟨"to move fast", ["He ran home."]⟩]⟩ ∧
    GoError.plain "timeout" ∈ errorEvents (extractionThenFailure "run").events ∧
    (ParseWord NewDictionaryParser extractionThenFailure "run").1
      = (⟨"", []⟩, some (.wrapError "failed to scrape: timeout" (.plain "timeout"))) ∧
    (ParseWord NewDictionaryParser extractionThenFailure "run").1.1
      ≠ ⟨"run", [⟨"to move fast", ["He ran home."]⟩]⟩ :=
  ⟨by decide, by decide, by decide, by decide⟩

/-- C9, amended. When the visit returns nil and at least one error was
delivered to the error callback, `ParseWord` returns the input word with the
definitions that the extraction callback collected (those of the first
container, if any), together with a non-nil error. -/
theorem collected_result_returned (dp : DictionaryParser) (visit : String → VisitResult)
    (word : String) (e : GoError)
    (hwf : dp.collector.WellFormed)
    (hret : (visit (dp.baseURL ++ word)).ret = none)
    (he : e ∈ errorEvents (visit (dp.baseURL ++ word)).events) :
    (ParseWord dp visit word).1.1
      = ⟨word, (ParseWordVisit dp visit word).locals.wordData.Definitions⟩ ∧
    (ParseWordVisit dp visit word).locals.wordData.Definitions
      = firstDefs (htmlEvents (visit (dp.baseURL ++ word)).events) ∧
    ∃ a, (ParseWord dp visit word).1.2 = some a := by
  obtain ⟨a, ha⟩ := aggregateAll_some _ (List.ne_nil_of_mem he)
  rw [ParseWord_ok dp visit word hwf hret, wordData_eq dp visit word hwf]
  exact ⟨rfl, rfl, a, ha⟩

theorem collected_result_returned_witness :
    (ParseWord NewDictionaryParser extractionThenError "run").1
      = (⟨"run", [⟨"to move fast", ["He ran home."]⟩]⟩, some (.plain "timeout")) ∧
    (ParseWord NewDictionaryParser extractionThenError "run").1.1
      = ⟨"run", (ParseWordVisit NewDictionaryParser extractionThenError "run").locals.wordData.Definitions⟩ :=
  ⟨by decide,
    (collected_result_returned NewDictionaryParser extractionThenError "run" (.plain "timeout")
      (wellFormed_new _) rfl (by decide)).1⟩

/-! ## Reusing one parser -/

theorem length_fire (ev : Event) (vs : List Locals) (cb : Callback) :
    (fire ev vs cb).length = vs.length := by
  cases cb <;> cases ev <;> simp [fire]

theorem length_dispatch (cbs : List Callback) (vs : List Locals) (ev : Event) :
    (dispatch cbs vs ev).length = vs.length := by
  unfold dispatch
  induction cbs generalizing vs with
  | nil => rfl
  | cons cb cbs ih => rw [List.foldl_cons, ih, length_fire]

theorem length_events (events : List Event) (cbs : List Callback) (vs : List Locals) :
    (events.foldl (dispatch cbs) vs).length = vs.length := by
  induction events generalizing vs with
  | nil => rfl
  | cons ev events ih => rw [List.foldl_cons, ih, length_dispatch]

theorem ParseWord_snd (dp : DictionaryParser) (visit : String → VisitResult) (word : String) :
    (ParseWord dp visit word).2 = (ParseWordVisit dp visit word).dp := by
  cases h : (ParseWordVisit dp visit word).err <;> simp only [ParseWord, h]

theorem registered_below (k : Nat) : ∀ cb ∈ registered k, cb.below k = true := by
  induction k with
  | zero => intro cb hcb; simp [registered] at hcb
  | succ k ih =>
    intro cb hcb
    simp only [registered, List.mem_append, List.mem_cons, List.mem_singleton,
      List.not_mem_nil, or_false] at hcb
    rcases hcb with h | h | h | h
    · have := ih cb h
      cases cb with
      | onHTML c =>
        exact decide_eq_true (Nat.lt_succ_of_lt (of_decide_eq_true this))
      | onError c =>
        exact decide_eq_true (Nat.lt_succ_of_lt (of_decide_eq_true this))
      | onRequest => rfl
    · subst h; exact decide_eq_true (Nat.lt_succ_self k)
    · subst h; exact decide_eq_true (Nat.lt_succ_self k)
    · subst h; rfl

theorem registered_ne (k : Nat) : ∀ cb ∈ registered k,
    (∀ cell, cb = .onHTML cell → cell ≠ k) ∧ (∀ cell, cb = .onError cell → cell ≠ k) :=
  below_ne _ _ (registered_below k)

theorem Reused.wellFormed {baseURL : String} {k : Nat} {dp : DictionaryParser}
    (h : Reused baseURL k dp) : dp.collector.WellFormed := by
  intro cb hcb
  rw [h.2.1] at hcb
  rw [h.2.2]
  exact registered_below k cb hcb

theorem Reused.parseWord {baseURL : String} {k : Nat} {dp : DictionaryParser}
    (h : Reused baseURL k dp) (visit : String → VisitResult) (word : String) :
    Reused baseURL (k + 1) (ParseWord dp visit word).2 := by
  rw [ParseWord_snd]
  refine ⟨h.1, ?_, ?_⟩
  · simp only [ParseWordVisit, h.2.1, h.2.2, registered]
  · simp only [ParseWordVisit, length_events, List.length_append, List.length_singleton, h.2.2]

theorem Reused.parseWords {baseURL : String} (calls : List ((String → VisitResult) × String)) :
    ∀ {k : Nat} {dp : DictionaryParser}, Reused baseURL k dp →
      Reused baseURL (k + calls.length) (ParseWords dp calls) := by
  induction calls with
  | nil => intro k dp h; exact h
  | cons c calls ih =>
    intro k dp h
    have := ih (h.parseWord c.1 c.2)
    simp only [List.length_cons]
    rw [Nat.add_comm calls.length 1, ← Nat.add_assoc]
    exact this

theorem reused_new (baseURL : String) : Reused baseURL 0 (WithBaseURL baseURL NewDictionaryParser) :=
  ⟨rfl, rfl, rfl⟩

theorem registered_fire (ev : Event) (k : Nat) : ∀ i, i < k → ∀ vs : List Locals,
    ((registered k).foldl (fire ev) vs)[i]? = (vs[i]?).map (fun st => step st ev) := by
  induction k with
  | zero => intro i hi; exact absurd hi (Nat.not_lt_zero i)
  | succ k ih =>
    intro i hi vs
    rcases Nat.lt_succ_iff_lt_or_eq.1 hi with hlt | heq
    · simp only [registered, List.foldl_append]
      rw [foldl_fire_getElem ev _ i ?_ _]
      · exact ih i hlt vs
      · intro cb hcb
        simp only [List.mem_cons, List.mem_singleton, List.not_mem_nil, or_false] at hcb
        have hne : k ≠ i := Nat.ne_of_gt hlt
        rcases hcb with h | h | h
        · subst h; exact ⟨fun c hc => (by cases hc; exact hne), fun c hc => (by cases hc)⟩
        · subst h; exact ⟨fun c hc => (by cases hc), fun c hc => (by cases hc; exact hne)⟩
        · subst h; exact ⟨fun c hc => (by cases hc), fun c hc => (by cases hc)⟩
    · subst heq
      exact dispatch_getElem ev (registered i) i (registered_ne i) vs

theorem registered_events (events : List Event) (k i : Nat) (hi : i < k) (vs : List Locals) :
    (events.foldl (dispatch (registered k)) vs)[i]?
      = (vs[i]?).map (fun st => events.foldl step st) := by
  induction events generalizing vs with
  | nil => simp
  | cons ev events ih =>
    rw [List.foldl_cons, ih]
    unfold dispatch
    rw [registered_fire ev k i hi vs]
    cases vs[i]? <;> simp

/-- C10. Reusing one parser: after any sequence of earlier `ParseWord` calls on
a new parser, all callbacks of the earlier calls are still registered and the
next call adds its own; during the next call every earlier call's variables
receive all the events; and the `WordData` and error that the next call
returns are those that a new parser returns for the same word and the same
behaviour of the collector. -/
theorem reuse_returns_fresh_result (baseURL : String)
    (calls : List ((String → VisitResult) × String))
    (visit : String → VisitResult) (word : String) :
    (ParseWord (ParseWords (WithBaseURL baseURL NewDictionaryParser) calls) visit word).1
      = (ParseWord (WithBaseURL baseURL NewDictionaryParser) visit word).1 ∧
    (ParseWords (WithBaseURL baseURL NewDictionaryParser) calls).collector.callbacks
      = registered calls.length ∧
    (ParseWord (ParseWords (WithBaseURL baseURL NewDictionaryParser) calls) visit
        word).2.collector.callbacks
      = registered calls.length ++
        [.onHTML calls.length, .onError calls.length, .onRequest] ∧
    (ParseWord (ParseWords (WithBaseURL baseURL NewDictionaryParser) calls) visit
        word).2.collector.vars.take calls.length
      = (ParseWords (WithBaseURL baseURL NewDictionaryParser) calls).collector.vars.map
          (fun st => (visit (baseURL ++ word)).events.foldl step st) := by
  have hr := Reused.parseWords calls (reused_new baseURL)
  rw [Nat.zero_add] at hr
  have hnext := hr.parseWord visit word
  refine ⟨?_, hr.2.1, hnext.2.1, ?_⟩
  · rw [ParseWord_eq _ visit word hr.wellFormed,
      ParseWord_eq _ visit word (reused_new baseURL).wellFormed, hr.1]
    rfl
  · apply List.ext_getElem?
    intro i
    by_cases hi : i < calls.length
    · rw [List.getElem?_take_of_lt hi, ParseWord_snd, List.getElem?_map]
      simp only [ParseWordVisit, hr.2.1, hr.2.2, hr.1]
      have := registered_events (visit (baseURL ++ word)).events (calls.length + 1) i
        (Nat.lt_succ_of_lt hi)
        ((ParseWords (WithBaseURL baseURL NewDictionaryParser) calls).collector.vars
          ++ [initLocals word])
      simp only [registered] at this
      rw [this, List.getElem?_append_left (by rw [hr.2.2]; exact hi)]
    · have hlen := hr.2.2
      rw [List.getElem?_eq_none (by simp; omega), List.getElem?_eq_none (by simp; omega)]

/-- An earlier call's error callback fires during a later call: after a second
call, the first call's `resultErr` holds the error of the second visit, while
the second call returns what a new parser returns. -/
theorem earlier_callbacks_fire :
    (ParseWords NewDictionaryParser [(runDocument, "run")]).collector.vars
      = [⟨⟨"run", [⟨"to move fast", ["He ran home."]⟩]⟩, true, none⟩] ∧
    (ParseWord (ParseWords NewDictionaryParser [(runDocument, "run")]) oneError
        "walk").2.collector.vars
      = [⟨⟨"run", [⟨"to move fast", ["He ran home."]⟩]⟩, true, some (.plain "timeout")⟩,
         ⟨⟨"walk", []⟩, false, some (.plain "timeout")⟩] ∧
    (ParseWord (ParseWords NewDictionaryParser [(runDocument, "run")]) oneError "walk").1
      = (⟨"walk", []⟩, some (.plain "timeout")) := by
  decide

end CambridgeParser
